import Mathlib

/-!
A shallow embedding of the snacka capture pipeline's core algorithms, with
theorems checking the natural-language specification against the code.

Sources embedded here (from the repository):
* `SnackaCaptureLinux/src/Protocol.h` — `AudioPacketHeader`, `PreviewPacketHeader`
  and the byte-order helpers (`htonl`, `htons`, `ToBigEndian64`);
* `SnackaCaptureLinux/src/VaapiEncoder.cpp` — `EncodeNV12` GOP bookkeeping,
  `EncodeFrame` failure paths, `ConvertAnnexBToAVCC`;
* `SnackaCaptureLinux/src/V4L2Capturer.cpp` — `ConvertYUYVToNV12`;
* `SnackaCaptureLinux/src/X11Capturer.cpp` — `ConvertBGRAtoNV12`;
* `SnackaCaptureLinux/src/main.cpp` — the encoded-output write callback.

Bytes are modelled as `Nat` values (< 256 wherever the code stores into a
`uint8_t`), buffers as `List Nat`, machine integers as `Nat`/`Int` with
explicit `% 2^w` at the points where the code stores into a fixed-width
field.  The host is modelled as little-endian (the configuration the Linux
code is written for: its `ToBigEndian64` byte-swaps exactly in the
`__ORDER_LITTLE_ENDIAN__` branch), so a packed struct field of value `v`
occupies its bytes least-significant first.
-/

namespace Snacka

/-! ## Byte-order helpers (Protocol.h) -/

/-- Little-endian memory image of a 16-bit field value. -/
def le16 (v : Nat) : List Nat := [v % 256, v / 2 ^ 8 % 256]

/-- Little-endian memory image of a 32-bit field value. -/
def le32 (v : Nat) : List Nat :=
  [v % 256, v / 2 ^ 8 % 256, v / 2 ^ 16 % 256, v / 2 ^ 24 % 256]

/-- Little-endian memory image of a 64-bit field value. -/
def le64 (v : Nat) : List Nat :=
  [v % 256, v / 2 ^ 8 % 256, v / 2 ^ 16 % 256, v / 2 ^ 24 % 256,
   v / 2 ^ 32 % 256, v / 2 ^ 40 % 256, v / 2 ^ 48 % 256, v / 2 ^ 56 % 256]

/-- 32-bit byte swap: `htonl` on a little-endian host. -/
def bswap32 (v : Nat) : Nat :=
  v % 256 * 2 ^ 24 + v / 2 ^ 8 % 256 * 2 ^ 16 + v / 2 ^ 16 % 256 * 2 ^ 8 + v / 2 ^ 24 % 256

/-- 16-bit byte swap: `htons` on a little-endian host. -/
def bswap16 (v : Nat) : Nat := v % 256 * 2 ^ 8 + v / 2 ^ 8 % 256

/-- 64-bit byte swap: `ToBigEndian64` (Protocol.h lines 11-24) on a
little-endian host. -/
def bswap64 (v : Nat) : Nat :=
  v % 256 * 2 ^ 56 + v / 2 ^ 8 % 256 * 2 ^ 48 + v / 2 ^ 16 % 256 * 2 ^ 40 +
    v / 2 ^ 24 % 256 * 2 ^ 32 + v / 2 ^ 32 % 256 * 2 ^ 24 + v / 2 ^ 40 % 256 * 2 ^ 16 +
    v / 2 ^ 48 % 256 * 2 ^ 8 + v / 2 ^ 56 % 256

/-- Big-endian byte sequence of a 32-bit value (the wire convention the
spec asks for; used to compare against what the code emits). -/
def be32 (v : Nat) : List Nat :=
  [v / 2 ^ 24 % 256, v / 2 ^ 16 % 256, v / 2 ^ 8 % 256, v % 256]

/-- Parse four bytes as a big-endian 32-bit unsigned integer. -/
def parseBE32 (bytes : List Nat) : Nat :=
  bytes.getD 0 0 * 2 ^ 24 + bytes.getD 1 0 * 2 ^ 16 + bytes.getD 2 0 * 2 ^ 8 + bytes.getD 3 0

/-! ## AudioPacketHeader (Protocol.h lines 29-56)

The constructor `AudioPacketHeader(samples, ts)` stores
`magic = htonl(MAGIC)`, `version = 2`, `bitsPerSample = 16`, `channels = 2`,
`isFloat = 0`, `sampleCount = samples`, `sampleRate = 48000`,
`timestamp = ts`.  The packed struct's memory image on the little-endian
host is the serialized packet header. -/

def audioMagic : Nat := 0x4D434150

/-- Memory image of `AudioPacketHeader(sampleCount, timestampMs)`. -/
def serializeAudioHeader (sampleCount timestampMs : Nat) : List Nat :=
  le32 (bswap32 (audioMagic % 2 ^ 32)) ++ [2, 16, 2, 0] ++
    le32 (sampleCount % 2 ^ 32) ++ le32 (48000 % 2 ^ 32) ++ le64 (timestampMs % 2 ^ 64)

/-! ## PreviewPacketHeader (Protocol.h lines 67-89)

The constructor stores `magic = htonl(MAGIC)`,
`length = htonl(2 + 2 + 1 + 8 + pixelDataSize)`, `width = htons(w)`,
`height = htons(h)`, `format = fmt`, `timestamp = ToBigEndian64(ts)`. -/

def previewMagic : Nat := 0x50524556

/-- Memory image of `PreviewPacketHeader(w, h, fmt, ts, pixelDataSize)`. -/
def serializePreviewHeader (w h fmt ts pixelDataSize : Nat) : List Nat :=
  le32 (bswap32 (previewMagic % 2 ^ 32)) ++
    le32 (bswap32 ((2 + 2 + 1 + 8 + pixelDataSize) % 2 ^ 32)) ++
    le16 (bswap16 (w % 2 ^ 16)) ++ le16 (bswap16 (h % 2 ^ 16)) ++
    [fmt % 2 ^ 8] ++ le64 (bswap64 (ts % 2 ^ 64))

/-- Storing `htonl v` into a 32-bit field on the little-endian host lays the
value out big-endian in memory. -/
theorem le32_bswap32 (v : Nat) : le32 (bswap32 (v % 2 ^ 32)) = be32 v := by
  have h0 : v % 2 ^ 32 % 256 = v % 256 := by omega
  have h1 : v % 2 ^ 32 / 2 ^ 8 % 256 = v / 2 ^ 8 % 256 := by omega
  have h2 : v % 2 ^ 32 / 2 ^ 16 % 256 = v / 2 ^ 16 % 256 := by omega
  have h3 : v % 2 ^ 32 / 2 ^ 24 % 256 = v / 2 ^ 24 % 256 := by omega
  have key : ∀ a b c d : Nat, a < 256 → b < 256 → c < 256 → d < 256 →
      (a * 2 ^ 24 + b * 2 ^ 16 + c * 2 ^ 8 + d) % 256 = d ∧
      (a * 2 ^ 24 + b * 2 ^ 16 + c * 2 ^ 8 + d) / 2 ^ 8 % 256 = c ∧
      (a * 2 ^ 24 + b * 2 ^ 16 + c * 2 ^ 8 + d) / 2 ^ 16 % 256 = b ∧
      (a * 2 ^ 24 + b * 2 ^ 16 + c * 2 ^ 8 + d) / 2 ^ 24 % 256 = a := by
    intro a b c d ha hb hc hd
    refine ⟨?_, ?_, ?_, ?_⟩ <;> omega
  obtain ⟨k1, k2, k3, k4⟩ :=
    key (v % 256) (v / 2 ^ 8 % 256) (v / 2 ^ 16 % 256) (v / 2 ^ 24 % 256)
      (by omega) (by omega) (by omega) (by omega)
  simp only [le32, bswap32, be32, h0, h1, h2, h3, List.cons.injEq, and_true]
  exact ⟨k1, k2, k3, k4⟩

/-- Parsing the big-endian image of a 32-bit value recovers the value. -/
theorem parseBE32_be32 (v : Nat) : parseBE32 (be32 v) = v % 2 ^ 32 := by
  simp only [parseBE32, be32, List.getD_cons_zero, List.getD_cons_succ]
  omega

/-- The length field of the serialized preview header (bytes 4..8) is the
big-endian image of `2 + 2 + 1 + 8 + pixelDataSize`. -/
theorem preview_len_field (w h fmt ts payload : Nat) :
    ((serializePreviewHeader w h fmt ts payload).drop 4).take 4 = be32 (13 + payload) := by
  have h4 : (le32 (bswap32 (previewMagic % 2 ^ 32))).length = 4 := rfl
  have h4' : (le32 (bswap32 ((2 + 2 + 1 + 8 + payload) % 2 ^ 32))).length = 4 := rfl
  have hb : (2 + 2 + 1 + 8 + payload) = 13 + payload := by omega
  simp only [serializePreviewHeader, List.append_assoc]
  rw [List.drop_left' h4, List.take_left' h4', hb]
  exact le32_bswap32 (13 + payload)

/--
C1: the serialized `AudioPacketHeader` is 24 bytes, but only the magic field
is emitted big-endian.  At `(sampleCount, timestampMs) = (1, 0)` the
`sampleCount` field occupies bytes 8..12 in host little-endian order
`[1,0,0,0]`, whereas the big-endian emission required by the header's own
documentation (Protocol.h line 28) would be `[0,0,0,1]`.
-/
theorem audio_header_host_order_c1 :
    (serializeAudioHeader 1 0).length = 24 ∧
    ((serializeAudioHeader 1 0).take 4 = be32 audioMagic) ∧
    ((serializeAudioHeader 1 0).drop 8).take 4 = [1, 0, 0, 0] ∧
    ((serializeAudioHeader 1 0).drop 8).take 4 ≠ be32 1 := by decide

/--
C5 counterexample: the claim says the preview header's 4-byte length field
equals the pixel payload size alone; at
`(width, height, format, timestampMs, payloadSize) = (1, 1, 0, 0, 0)` the
field parses (big-endian) to 13, not 0.
-/
theorem preview_length_field_c5_counterexample :
    parseBE32 (((serializePreviewHeader 1 1 0 0 0).drop 4).take 4) ≠ 0 := by decide

/--
C5 (amended): the serialized `PreviewPacketHeader` is exactly 21 bytes, and
its 4-byte big-endian length field equals `pixelDataSize + 13` reduced
mod `2^32` — the byte count of everything after the length field (width,
height, format and timestamp fields plus the pixel payload), not the pixel
payload alone.
-/
theorem preview_header_c5 (w h fmt ts payload : Nat) :
    (serializePreviewHeader w h fmt ts payload).length = 21 ∧
    parseBE32 (((serializePreviewHeader w h fmt ts payload).drop 4).take 4) =
      (13 + payload) % 2 ^ 32 := by
  refine ⟨rfl, ?_⟩
  rw [preview_len_field, parseBE32_be32]

/-! ## VaapiEncoder GOP state machine (VaapiEncoder.cpp lines 255-360)

`EncodeNV12` is modelled on an initialized session.  The VAAPI hardware
calls are replaced by an outcome oracle `HwOutcome` recording whether each
call succeeds: `vaDeriveImage`, `vaMapBuffer` (for the frame upload),
`vaBeginPicture`, `RenderPicture`, `vaEndPicture`, `vaSyncSurface`
(the last four make up `EncodeFrame`), and the coded-buffer map inside
`GetEncodedData` (whose return value `EncodeNV12` ignores).  The encoder
state mirrors the fields the claims are about; `m_refSurface` (a
`VASurfaceID` out of `m_surfaces`) is modelled as the surface slot index,
`none` standing for `VA_INVALID_SURFACE`. -/

/-- `NUM_SURFACES` (VaapiEncoder.h line 91). -/
def numSurfaces : Nat := 4

structure EncState where
  frameCount : Nat
  frameNumInGop : Nat
  idrPicId : Nat
  currentSurface : Nat
  refSurface : Option Nat
  refSurfaceIndex : Nat
deriving DecidableEq

/-- Encoder state right after `Initialize` (member initializers in
VaapiEncoder.h). -/
def initEncState : EncState :=
  { frameCount := 0, frameNumInGop := 0, idrPicId := 0,
    currentSurface := 0, refSurface := none, refSurfaceIndex := 0 }

structure HwOutcome where
  derive : Bool
  map : Bool
  beginPic : Bool
  render : Bool
  endPic : Bool
  sync : Bool
  getData : Bool
deriving DecidableEq

/-- The all-success oracle. -/
def hwOk : HwOutcome :=
  { derive := true, map := true, beginPic := true, render := true,
    endPic := true, sync := true, getData := true }

/-- The keyframe decision of `EncodeNV12`
(line 303: `bool isKeyframe = (m_frameCount % m_gopSize == 0);`). -/
def keyframeFlag (gopSize : Nat) (st : EncState) : Bool :=
  st.frameCount % gopSize == 0

/-- `EncodeNV12` (lines 255-326): each hardware failure returns `false`
before the state update block at lines 313-323; on success the state is
updated exactly as written there. -/
def encodeNV12 (gopSize : Nat) (st : EncState) (hw : HwOutcome) : Bool × EncState :=
  if hw.derive = false then (false, st)
  else if hw.map = false then (false, st)
  else
    let isKeyframe := keyframeFlag gopSize st
    if hw.beginPic = false then (false, st)
    else if hw.render = false then (false, st)
    else if hw.endPic = false then (false, st)
    else if hw.sync = false then (false, st)
    else
      let st1 : EncState :=
        { st with
          refSurfaceIndex := st.currentSurface
          refSurface := some st.currentSurface
          currentSurface := (st.currentSurface + 1) % numSurfaces
          frameCount := st.frameCount + 1
          frameNumInGop := st.frameNumInGop + 1 }
      if isKeyframe then
        (true, { st1 with frameNumInGop := 0, idrPicId := st1.idrPicId + 1 })
      else
        (true, st1)

/-- Session state after `n` successful submissions starting from the
freshly initialized state. -/
def runState (gopSize : Nat) : Nat → EncState
  | 0 => initEncState
  | n + 1 => (encodeNV12 gopSize (runState gopSize n) hwOk).2

/-- Session state after a list of submissions with arbitrary hardware
outcomes, starting from the freshly initialized state. -/
def runStateWith (gopSize : Nat) (hws : List HwOutcome) : EncState :=
  hws.foldl (fun st hw => (encodeNV12 gopSize st hw).2) initEncState

theorem frameCount_runState (gopSize n : Nat) : (runState gopSize n).frameCount = n := by
  induction n with
  | zero => rfl
  | succ n ih =>
    simp only [runState, encodeNV12, hwOk]
    by_cases hk : keyframeFlag gopSize (runState gopSize n) = true <;>
      simp [hk, ih]

theorem idrPicId_runState_step (gopSize n : Nat) :
    (runState gopSize (n + 1)).idrPicId =
      (runState gopSize n).idrPicId +
        (if keyframeFlag gopSize (runState gopSize n) then 1 else 0) := by
  simp only [runState, encodeNV12, hwOk]
  by_cases hk : keyframeFlag gopSize (runState gopSize n) = true <;> simp [hk]

/--
C2: with GOP size `G ≥ 1` and every submission succeeding, the keyframe
decision of submission `i` (taken from the state before that call) is true
among the first `3G` submissions exactly at `i = 0, G, 2G`; `m_idrPicId`
increments by one exactly on keyframe submissions; and after 10 frames with
`gopSize = 4` it has incremented exactly 3 times (from 0 to 3).
-/
theorem gop_cadence_c2 (G : Nat) (hG : 1 ≤ G) :
    (∀ i, i < 3 * G →
      (keyframeFlag G (runState G i) = true ↔ (i = 0 ∨ i = G ∨ i = 2 * G))) ∧
    (∀ i, (runState G (i + 1)).idrPicId =
      (runState G i).idrPicId + (if keyframeFlag G (runState G i) then 1 else 0)) ∧
    (runState 4 10).idrPicId = 3 := by
  refine ⟨?_, fun i => idrPicId_runState_step G i, by decide⟩
  intro i hi
  rw [keyframeFlag, frameCount_runState, beq_iff_eq]
  constructor
  · intro hmod
    obtain ⟨q, hq⟩ := Nat.dvd_of_mod_eq_zero hmod
    have hq3 : q < 3 := by
      by_contra hge
      push_neg at hge
      have h3 : G * 3 ≤ G * q := Nat.mul_le_mul_left G hge
      omega
    interval_cases q <;> omega
  · rintro (rfl | rfl | rfl)
    · simp
    · simp [Nat.mod_self]
    · simp [Nat.mul_mod_left]

theorem gop_cadence_c2_witness :
    (keyframeFlag 2 (runState 2 2) = true ↔ (2 = 0 ∨ 2 = 2 ∨ 2 = 2 * 2)) ∧
    (runState 4 10).idrPicId = 3 :=
  ⟨(gop_cadence_c2 2 (by decide)).1 2 (by decide), (gop_cadence_c2 2 (by decide)).2.2⟩

/-- `EncodeNV12` either fails leaving the state untouched, or succeeds and
performs exactly the update of lines 313-323. -/
theorem encodeNV12_cases (gopSize : Nat) (st : EncState) (hw : HwOutcome) :
    encodeNV12 gopSize st hw = (false, st) ∨
    encodeNV12 gopSize st hw =
      (true,
        if keyframeFlag gopSize st then
          { frameCount := st.frameCount + 1, frameNumInGop := 0,
            idrPicId := st.idrPicId + 1,
            currentSurface := (st.currentSurface + 1) % numSurfaces,
            refSurface := some st.currentSurface,
            refSurfaceIndex := st.currentSurface }
        else
          { frameCount := st.frameCount + 1, frameNumInGop := st.frameNumInGop + 1,
            idrPicId := st.idrPicId,
            currentSurface := (st.currentSurface + 1) % numSurfaces,
            refSurface := some st.currentSurface,
            refSurfaceIndex := st.currentSurface }) := by
  obtain ⟨d, m, bp, r, ep, sy, gd⟩ := hw
  by_cases hk : keyframeFlag gopSize st = true <;>
    cases d <;> cases m <;> cases bp <;> cases r <;> cases ep <;> cases sy <;>
      simp_all [encodeNV12]

/--
C4: if any of the hardware steps of `EncodeNV12` fails — `vaDeriveImage`,
`vaMapBuffer`, or any step of `EncodeFrame` (`vaBeginPicture`,
`RenderPicture`, `vaEndPicture`, `vaSyncSurface`) — the call returns
`false` and the whole GOP state (`m_frameCount`, `m_frameNumInGop`,
`m_idrPicId`, `m_currentSurface`, reference-frame handle and index) is
unchanged.
-/
theorem encode_failure_no_advance_c4 (gopSize : Nat) (st : EncState) (hw : HwOutcome)
    (hfail : hw.derive = false ∨ hw.map = false ∨ hw.beginPic = false ∨
      hw.render = false ∨ hw.endPic = false ∨ hw.sync = false) :
    encodeNV12 gopSize st hw = (false, st) := by
  obtain ⟨d, m, bp, r, ep, sy, gd⟩ := hw
  simp only at hfail
  cases d <;> cases m <;> cases bp <;> cases r <;> cases ep <;> cases sy <;>
    simp_all [encodeNV12]

/-- Oracle in which only `vaSyncSurface` fails. -/
def hwSyncFail : HwOutcome := { hwOk with sync := false }

theorem encode_failure_no_advance_c4_witness :
    encodeNV12 2 initEncState hwSyncFail = (false, initEncState) :=
  encode_failure_no_advance_c4 2 initEncState hwSyncFail (by decide)

/-- The inductive invariant tying `m_frameNumInGop` to `m_frameCount`. -/
def EncInv (gopSize : Nat) (st : EncState) : Prop :=
  st.currentSurface < 4 ∧
  st.frameNumInGop = (if st.frameCount = 0 then 0 else (st.frameCount - 1) % gopSize)

theorem encInv_init (gopSize : Nat) : EncInv gopSize initEncState := by
  constructor <;> simp [initEncState]

theorem encInv_step (gopSize : Nat) (hG : 1 ≤ gopSize) (st : EncState) (hw : HwOutcome)
    (h : EncInv gopSize st) : EncInv gopSize (encodeNV12 gopSize st hw).2 := by
  obtain ⟨h1, h2⟩ := h
  rcases encodeNV12_cases gopSize st hw with hc | hc <;> rw [hc]
  · exact ⟨h1, h2⟩
  by_cases hk : keyframeFlag gopSize st = true
  · have hmod : st.frameCount % gopSize = 0 := by
      simpa [keyframeFlag, beq_iff_eq] using hk
    refine ⟨?_, ?_⟩ <;> simp only [hk, if_true]
    · exact Nat.mod_lt _ (by simp [numSurfaces])
    · simp [hmod]
  · have hmod : st.frameCount % gopSize ≠ 0 := by
      simpa [keyframeFlag, beq_iff_eq] using hk
    have hfc : st.frameCount ≠ 0 := by
      intro h0
      exact hmod (by simp [h0])
    have hr : st.frameCount % gopSize < gopSize := Nat.mod_lt _ (by omega)
    have hdm := Nat.div_add_mod st.frameCount gopSize
    have hsub : st.frameCount - 1 =
        gopSize * (st.frameCount / gopSize) + (st.frameCount % gopSize - 1) := by
      omega
    have key : (st.frameCount - 1) % gopSize + 1 = st.frameCount % gopSize := by
      rw [hsub, Nat.mul_add_mod, Nat.mod_eq_of_lt (by omega)]
      omega
    refine ⟨?_, ?_⟩ <;> simp only [hk, if_false, Bool.false_eq_true]
    · exact Nat.mod_lt _ (by simp [numSurfaces])
    · simp only [h2, if_neg hfc]
      simp only [Nat.add_sub_cancel]
      have : st.frameCount + 1 ≠ 0 := by omega
      rw [if_neg this]
      omega

/--
C10: from the initialized session, after any sequence of `EncodeNV12` calls
with arbitrary per-call hardware outcomes (and `gopSize ≥ 1`), the
round-robin slot index `m_currentSurface` lies in `[0, 4)` and
`m_frameNumInGop` lies in `[0, gopSize)`; moreover any further successful
call advances `m_currentSurface` by exactly one modulo the 4 allocated
surfaces.
-/
theorem encode_invariant_c10 (gopSize : Nat) (hG : 1 ≤ gopSize) (hws : List HwOutcome) :
    (runStateWith gopSize hws).currentSurface < 4 ∧
    (runStateWith gopSize hws).frameNumInGop < gopSize ∧
    ∀ hw, (encodeNV12 gopSize (runStateWith gopSize hws) hw).1 = true →
      (encodeNV12 gopSize (runStateWith gopSize hws) hw).2.currentSurface =
        ((runStateWith gopSize hws).currentSurface + 1) % 4 := by
  have hinv : EncInv gopSize (runStateWith gopSize hws) := by
    rw [runStateWith]
    have main : ∀ (l : List HwOutcome) (st : EncState), EncInv gopSize st →
        EncInv gopSize (l.foldl (fun st hw => (encodeNV12 gopSize st hw).2) st) := by
      intro l
      induction l with
      | nil => intro st h; exact h
      | cons hw t ih =>
        intro st h
        exact ih _ (encInv_step gopSize hG st hw h)
    exact main hws initEncState (encInv_init gopSize)
  obtain ⟨h1, h2⟩ := hinv
  have hfng : (runStateWith gopSize hws).frameNumInGop < gopSize := by
    rw [h2]
    split
    · omega
    · exact Nat.mod_lt _ (by omega)
  refine ⟨h1, hfng, ?_⟩
  intro hw hsucc
  rcases encodeNV12_cases gopSize (runStateWith gopSize hws) hw with hc | hc
  · rw [hc] at hsucc
    simp at hsucc
  · rw [hc]
    by_cases hk : keyframeFlag gopSize (runStateWith gopSize hws) = true <;>
      simp [hk, numSurfaces]

/-! ## Row-major plane indexing

The conversion routines write their output planes row by row; the helpers
below recover one entry of such a row-major buffer. -/

theorem length_join_rows (row : Nat → List Nat) (L : Nat)
    (hrow : ∀ r, (row r).length = L) (n : Nat) :
    (List.flatten ((List.range n).map row)).length = n * L := by
  induction n with
  | zero => simp
  | succ n ih =>
    rw [List.range_succ, List.map_append, List.flatten_append]
    simp [ih, hrow, Nat.succ_mul]

theorem getD_join_rows (row : Nat → List Nat) (L : Nat)
    (hrow : ∀ r, (row r).length = L) (h y k : Nat) (hy : y < h) (hk : k < L) :
    (List.flatten ((List.range h).map row)).getD (y * L + k) 0 = (row y).getD k 0 := by
  induction h with
  | zero => omega
  | succ n ih =>
    rw [List.range_succ, List.map_append, List.flatten_append]
    rcases Nat.lt_or_ge y n with hlt | hge
    · rw [List.getD_append]
      · exact ih hlt
      · rw [length_join_rows row L hrow n]
        have h1 : y * L + k < (y + 1) * L := by rw [Nat.succ_mul]; omega
        have h2 : (y + 1) * L ≤ n * L := Nat.mul_le_mul_right L hlt
        omega
    · have hy' : y = n := by omega
      subst hy'
      have hlen : (List.map row (List.range y)).flatten.length = y * L :=
        length_join_rows row L hrow y
      rw [show y * L + k = (List.map row (List.range y)).flatten.length + k by omega]
      rw [List.getD_append_right _ _ _ _ (Nat.le_add_right _ _), Nat.add_sub_cancel_left]
      simp

theorem getD_map_range (g : Nat → Nat) (n x : Nat) (hx : x < n) :
    ((List.range n).map g).getD x 0 = g x := by
  rw [List.getD_eq_getElem?_getD, List.getElem?_map, List.getElem?_range hx]
  rfl

theorem encode_invariant_c10_witness :
    (runStateWith 1 []).currentSurface < 4 ∧
    (runStateWith 1 []).frameNumInGop < 1 ∧
    ∀ hw, (encodeNV12 1 (runStateWith 1 []) hw).1 = true →
      (encodeNV12 1 (runStateWith 1 []) hw).2.currentSurface =
        ((runStateWith 1 []).currentSurface + 1) % 4 :=
  encode_invariant_c10 1 (by decide) []

/-! ## ConvertYUYVToNV12 (V4L2Capturer.cpp lines 352-390)

The input is a packed 4:2:2 buffer (`Y0 U0 Y1 V0 ...`, row stride
`width * 2`); the output is one NV12 buffer: the full-resolution luma plane
followed by the half-height interleaved UV plane. -/

/-- Luma byte of source pixel `(x, y)`: `yuyvRow[x * 2]` with
`yuyvRow = yuyv + y * width * 2`. -/
def yuyvY (yuyv : List Nat) (w y x : Nat) : Nat := yuyv.getD (y * (w * 2) + x * 2) 0

/-- `U` byte of source chroma pair `x` in row `y`: `yuyvRow[x * 4 + 1]`. -/
def yuyvU (yuyv : List Nat) (w y x : Nat) : Nat := yuyv.getD (y * (w * 2) + x * 4 + 1) 0

/-- `V` byte of source chroma pair `x` in row `y`: `yuyvRow[x * 4 + 3]`. -/
def yuyvV (yuyv : List Nat) (w y x : Nat) : Nat := yuyv.getD (y * (w * 2) + x * 4 + 3) 0

/-- `ConvertYUYVToNV12`: luma copied pixel-for-pixel; each output UV pair
averages (integer division by 2) the chroma of source rows `2y` and
`2y + 1` at chroma column `x`. -/
def convertYUYVToNV12 (yuyv : List Nat) (w h : Nat) : List Nat :=
  let yPlane :=
    ((List.range h).map (fun y => (List.range w).map (fun x => yuyvY yuyv w y x))).flatten
  let uvPlane :=
    ((List.range (h / 2)).map (fun y =>
      ((List.range (w / 2)).map (fun x =>
        [(yuyvU yuyv w (y * 2) x + yuyvU yuyv w (y * 2 + 1) x) / 2,
         (yuyvV yuyv w (y * 2) x + yuyvV yuyv w (y * 2 + 1) x) / 2])).flatten)).flatten
  yPlane ++ uvPlane

theorem convertYUYV_luma (yuyv : List Nat) (w h y x : Nat) (hy : y < h) (hx : x < w) :
    (convertYUYVToNV12 yuyv w h).getD (y * w + x) 0 = yuyvY yuyv w y x := by
  rw [convertYUYVToNV12]
  have hrow : ∀ r, ((List.range w).map (fun x => yuyvY yuyv w r x)).length = w := by
    intro r; simp
  rw [List.getD_append]
  · rw [getD_join_rows _ w hrow h y x hy hx]
    exact getD_map_range _ w x hx
  · rw [length_join_rows _ w hrow h]
    have h1 : y * w + x < (y + 1) * w := by rw [Nat.succ_mul]; omega
    have h2 : (y + 1) * w ≤ h * w := Nat.mul_le_mul_right w hy
    omega

/-- Indexing past a leading plane of known length. -/
theorem getD_skip_plane (yP uv : List Nat) (n k : Nat) (hlen : yP.length = n) :
    (yP ++ uv).getD (n + k) 0 = uv.getD k 0 := by
  subst hlen
  rw [List.getD_append_right _ _ _ _ (Nat.le_add_right _ _), Nat.add_sub_cancel_left]

theorem convertYUYV_chroma (yuyv : List Nat) (w h y x : Nat) (hw2 : w % 2 = 0)
    (hy : y < h / 2) (hx : x < w / 2) :
    (convertYUYVToNV12 yuyv w h).getD (h * w + (y * w + x * 2)) 0 =
      (yuyvU yuyv w (y * 2) x + yuyvU yuyv w (y * 2 + 1) x) / 2 ∧
    (convertYUYVToNV12 yuyv w h).getD (h * w + (y * w + x * 2 + 1)) 0 =
      (yuyvV yuyv w (y * 2) x + yuyvV yuyv w (y * 2 + 1) x) / 2 := by
  rw [convertYUYVToNV12]
  have hyrow : ∀ r, ((List.range w).map (fun x => yuyvY yuyv w r x)).length = w := by
    intro r; simp
  have hylen :
      (((List.range h).map (fun y => (List.range w).map (fun x => yuyvY yuyv w y x))).flatten).length
        = h * w := length_join_rows _ w hyrow h
  have hpair : ∀ r, ∀ x' : Nat,
      ([(yuyvU yuyv w (r * 2) x' + yuyvU yuyv w (r * 2 + 1) x') / 2,
        (yuyvV yuyv w (r * 2) x' + yuyvV yuyv w (r * 2 + 1) x') / 2] : List Nat).length = 2 := by
    intro r x'; rfl
  have huvrow : ∀ r,
      (((List.range (w / 2)).map (fun x =>
        [(yuyvU yuyv w (r * 2) x + yuyvU yuyv w (r * 2 + 1) x) / 2,
         (yuyvV yuyv w (r * 2) x + yuyvV yuyv w (r * 2 + 1) x) / 2])).flatten).length = w := by
    intro r
    rw [length_join_rows _ 2 (hpair r) (w / 2)]
    omega
  constructor
  · rw [getD_skip_plane _ _ (h * w) (y * w + x * 2) hylen]
    rw [getD_join_rows _ w huvrow (h / 2) y (x * 2) hy (by omega)]
    rw [show x * 2 = x * 2 + 0 from rfl]
    rw [getD_join_rows _ 2 (hpair y) (w / 2) x 0 hx (by omega)]
    rfl
  · rw [getD_skip_plane _ _ (h * w) (y * w + x * 2 + 1) hylen]
    rw [show y * w + x * 2 + 1 = y * w + (x * 2 + 1) by omega]
    rw [getD_join_rows _ w huvrow (h / 2) y (x * 2 + 1) hy (by omega)]
    rw [getD_join_rows _ 2 (hpair y) (w / 2) x 1 hx (by omega)]
    rfl

/--
C6: for even frame dimensions, `ConvertYUYVToNV12` copies luma
pixel-for-pixel into the Y plane, and every output chroma byte is the
integer average of the matching chroma bytes of source rows `2y` and
`2y + 1`; in particular the 2×2 frame with both rows `Y=100,Cb=50,Y=100,Cr=200`
converts to luma plane `[100,100,100,100]` and chroma plane `[50,200]`.
-/
theorem yuyv_to_nv12_c6 (w h : Nat) (yuyv : List Nat) (hw2 : w % 2 = 0) (_hh2 : h % 2 = 0) :
    (∀ y x, y < h → x < w →
      (convertYUYVToNV12 yuyv w h).getD (y * w + x) 0 =
        yuyv.getD (y * (w * 2) + x * 2) 0) ∧
    (∀ y x, y < h / 2 → x < w / 2 →
      (convertYUYVToNV12 yuyv w h).getD (h * w + (y * w + x * 2)) 0 =
        (yuyv.getD (y * 2 * (w * 2) + x * 4 + 1) 0 +
          yuyv.getD ((y * 2 + 1) * (w * 2) + x * 4 + 1) 0) / 2 ∧
      (convertYUYVToNV12 yuyv w h).getD (h * w + (y * w + x * 2 + 1)) 0 =
        (yuyv.getD (y * 2 * (w * 2) + x * 4 + 3) 0 +
          yuyv.getD ((y * 2 + 1) * (w * 2) + x * 4 + 3) 0) / 2) ∧
    convertYUYVToNV12 [100, 50, 100, 200, 100, 50, 100, 200] 2 2 =
      [100, 100, 100, 100, 50, 200] := by
  refine ⟨?_, ?_, by decide⟩
  · intro y x hy hx
    exact convertYUYV_luma yuyv w h y x hy hx
  · intro y x hy hx
    exact convertYUYV_chroma yuyv w h y x hw2 hy hx

theorem yuyv_to_nv12_c6_witness :
    convertYUYVToNV12 [100, 50, 100, 200, 100, 50, 100, 200] 2 2 =
      [100, 100, 100, 100, 50, 200] :=
  (yuyv_to_nv12_c6 2 2 [100, 50, 100, 200, 100, 50, 100, 200] (by decide) (by decide)).2.2

/-! ## ConvertBGRAtoNV12 (X11Capturer.cpp lines 180-252)

The pixel math runs in C `int`; `>> 8` is the arithmetic right shift, i.e.
floor division by 256 (`Int.fdiv`), and `std::clamp(v, 0, 255)` caps the
result into a byte.  The function is modelled for the identity-scale case
(`srcWidth = m_width`, `srcHeight = m_height`, 32 bits per pixel, stride
`4 * width`), where `scaleX = scaleY = 1.0f` and the float index products
`int(x * scale)` are exact, so no floating-point behaviour remains. -/

/-- `std::clamp(v, 0, 255)`. -/
def clampToByte (v : Int) : Int := max 0 (min v 255)

/-- Luma formula (line 208): `((66*r + 129*g + 25*b + 128) >> 8) + 16`,
clamped. -/
def bt601Y (r g b : Nat) : Int :=
  clampToByte (Int.fdiv (66 * (r : Int) + 129 * (g : Int) + 25 * (b : Int) + 128) 256 + 16)

/-- Chroma U formula (line 245): `((-38*r - 74*g + 112*b + 128) >> 8) + 128`,
clamped. -/
def bt601U (r g b : Nat) : Int :=
  clampToByte (Int.fdiv (-38 * (r : Int) - 74 * (g : Int) + 112 * (b : Int) + 128) 256 + 128)

/-- Chroma V formula (line 246): `((112*r - 94*g - 18*b + 128) >> 8) + 128`,
clamped. -/
def bt601V (r g b : Nat) : Int :=
  clampToByte (Int.fdiv (112 * (r : Int) - 94 * (g : Int) - 18 * (b : Int) + 128) 256 + 128)

/-- Byte `pixel[c]` of source pixel `(x, y)` (stride `4 * width`). -/
def bgraByte (bgra : List Nat) (w x y c : Nat) : Nat := bgra.getD (y * (w * 4) + x * 4 + c) 0

/-- `ConvertBGRAtoNV12` at identity scale: full-resolution luma plane, then
the half-resolution interleaved UV plane, each chroma sample averaging the
2×2 source block (`count = 4`). -/
def convertBGRAtoNV12 (bgra : List Nat) (w h : Nat) : List Nat :=
  let yPlane :=
    ((List.range h).map (fun y => (List.range w).map (fun x =>
      let sy := min y (h - 1)
      let sx := min x (w - 1)
      (bt601Y (bgraByte bgra w sx sy 2) (bgraByte bgra w sx sy 1)
        (bgraByte bgra w sx sy 0)).toNat))).flatten
  let uvPlane :=
    ((List.range (h / 2)).map (fun y =>
      ((List.range (w / 2)).map (fun x =>
        let px0 := min (x * 2) (w - 1)
        let px1 := min (x * 2 + 1) (w - 1)
        let py0 := min (y * 2) (h - 1)
        let py1 := min (y * 2 + 1) (h - 1)
        let rSum := bgraByte bgra w px0 py0 2 + bgraByte bgra w px1 py0 2 +
          bgraByte bgra w px0 py1 2 + bgraByte bgra w px1 py1 2
        let gSum := bgraByte bgra w px0 py0 1 + bgraByte bgra w px1 py0 1 +
          bgraByte bgra w px0 py1 1 + bgraByte bgra w px1 py1 1
        let bSum := bgraByte bgra w px0 py0 0 + bgraByte bgra w px1 py0 0 +
          bgraByte bgra w px0 py1 0 + bgraByte bgra w px1 py1 0
        [(bt601U (rSum / 4) (gSum / 4) (bSum / 4)).toNat,
         (bt601V (rSum / 4) (gSum / 4) (bSum / 4)).toNat])).flatten)).flatten
  yPlane ++ uvPlane

/--
C7: under the integer BT.601 formulas of `ConvertBGRAtoNV12`, a pure-white
input pixel (B=255, G=255, R=255) yields luma 235 and chroma U=128, V=128,
and a pure-black pixel (0, 0, 0) yields luma 16 and chroma 128, 128; a 2×2
all-white frame converts to NV12 `[235,235,235,235,128,128]` and an
all-black one to `[16,16,16,16,128,128]`.
-/
theorem bt601_boundary_c7 :
    bt601Y 255 255 255 = 235 ∧ bt601U 255 255 255 = 128 ∧ bt601V 255 255 255 = 128 ∧
    bt601Y 0 0 0 = 16 ∧ bt601U 0 0 0 = 128 ∧ bt601V 0 0 0 = 128 ∧
    convertBGRAtoNV12 (List.replicate 16 255) 2 2 = [235, 235, 235, 235, 128, 128] ∧
    convertBGRAtoNV12 (List.replicate 16 0) 2 2 = [16, 16, 16, 16, 128, 128] := by
  decide

/-! ## Encoded-output write callback (main.cpp lines 328-353)

The callback writes the AVCC buffer to stdout in a short-write retry loop;
on a write error it logs once and clears the process-wide `g_running`
flag, and every invocation begins with `if (!g_running) return;`.
`write` outcomes are an oracle list, one entry per attempted `write` call:
`ok n` means the call wrote `n` bytes, `err` means it returned an error.
If the oracle list runs out before the buffer is complete the loop result
is returned as-is (theorems only use oracles long enough to decide the
call). -/

inductive WriteRes where
  | ok (n : Nat)
  | err
deriving DecidableEq

structure ChanState where
  running : Bool
  totalWritten : Nat
  reports : Nat
  frames : Nat
deriving DecidableEq

def initChanState : ChanState :=
  { running := true, totalWritten := 0, reports := 0, frames := 0 }

/-- The `while (written < size && g_running)` retry loop.  Returns the
state and whether the loop aborted on a write error (the `return` inside
the error branch, after reporting once and clearing `g_running`). -/
def runWriteLoop (st : ChanState) (written size : Nat) :
    List WriteRes → ChanState × Bool
  | [] => (st, false)
  | res :: rest =>
    if written < size ∧ st.running = true then
      match res with
      | .err =>
        ({ st with running := false, reports := st.reports + 1 }, true)
      | .ok n =>
        runWriteLoop { st with totalWritten := st.totalWritten + n } (written + n) size rest
    else
      (st, false)

/-- One invocation of the encoded-data callback for a buffer of `size`
bytes: `if (!g_running) return;`, then the write loop, then
`encodedFrameCount++` unless the loop aborted. -/
def encodedCallback (st : ChanState) (size : Nat) (outcomes : List WriteRes) : ChanState :=
  if st.running = false then st
  else
    let r := runWriteLoop st 0 size outcomes
    if r.2 then r.1 else { r.1 with frames := r.1.frames + 1 }

theorem runWriteLoop_err (st : ChanState) (written size : Nat) (outcomes : List WriteRes)
    (habort : (runWriteLoop st written size outcomes).2 = true) :
    (runWriteLoop st written size outcomes).1.running = false ∧
    (runWriteLoop st written size outcomes).1.reports = st.reports + 1 := by
  induction outcomes generalizing st written with
  | nil => simp [runWriteLoop] at habort
  | cons res rest ih =>
    by_cases hc : written < size ∧ st.running = true
    · cases res with
      | err => simp [runWriteLoop, hc]
      | ok n =>
        simp only [runWriteLoop] at habort ⊢
        rw [if_pos hc] at habort ⊢
        exact ih _ _ habort
    · simp only [runWriteLoop] at habort
      rw [if_neg hc] at habort
      simp at habort

/-- A callback invocation in the suppressed state is a no-op. -/
theorem encodedCallback_suppressed (st : ChanState) (size : Nat)
    (outcomes : List WriteRes) (h : st.running = false) :
    encodedCallback st size outcomes = st := by
  simp [encodedCallback, h]

/--
C9: if an invocation of the encoded-output callback hits a write error
(the retry loop aborts), that invocation reports the failure exactly once
(`reports` goes up by one) and clears the running flag; afterwards every
further invocation of the callback — any number of calls, any sizes, any
write outcomes — leaves the state untouched: nothing more is written and
nothing more is reported.
-/
theorem write_failure_suppression_c9 (st : ChanState) (size : Nat)
    (outcomes : List WriteRes) (hrun : st.running = true)
    (hfail : (runWriteLoop st 0 size outcomes).2 = true) :
    (encodedCallback st size outcomes).reports = st.reports + 1 ∧
    (encodedCallback st size outcomes).running = false ∧
    (∀ calls : List (Nat × List WriteRes),
      calls.foldl (fun s c => encodedCallback s c.1 c.2) (encodedCallback st size outcomes) =
        encodedCallback st size outcomes) := by
  obtain ⟨h1, h2⟩ := runWriteLoop_err st 0 size outcomes hfail
  have hcb : encodedCallback st size outcomes = (runWriteLoop st 0 size outcomes).1 := by
    simp [encodedCallback, hrun, hfail]
  refine ⟨by rw [hcb]; exact h2, by rw [hcb]; exact h1, ?_⟩
  intro calls
  induction calls with
  | nil => rfl
  | cons c rest ih =>
    rw [List.foldl_cons]
    rw [encodedCallback_suppressed _ c.1 c.2 (by rw [hcb]; exact h1)]
    exact ih

/-! ## ConvertAnnexBToAVCC (VaapiEncoder.cpp lines 522-590)

The outer loop scans byte index `i` for a 4-byte (`00 00 00 01`) or 3-byte
(`00 00 01`) start code (4-byte checked first); with none at `i` it
advances one byte.  After a start code, the inner loop finds the NAL end:
the first `j ≥ nalStart` with `j + 3 ≤ size` whose window matches
`00 00 01`, or `00 00 0x 01` with `j + 4 ≤ size`; otherwise the unit runs
to the end of the buffer.  Nonempty units are classified by
`annexB[nalStart] & 0x1F` (SPS = 7 replaces the cached SPS, PPS = 8
replaces the cached PPS and sets `m_haveSpsPs`) and appended to the output
as a 4-byte big-endian length prefix plus payload; empty units are
skipped.  The callback fires iff the output buffer is nonempty. -/

/-- `startCodeLen` computed at lines 529-538 for position `i`. -/
def startCodeLenAt (b : List Nat) (i : Nat) : Nat :=
  if i + 4 ≤ b.length ∧ b.getD i 0 = 0 ∧ b.getD (i + 1) 0 = 0 ∧
      b.getD (i + 2) 0 = 0 ∧ b.getD (i + 3) 0 = 1 then 4
  else if i + 3 ≤ b.length ∧ b.getD i 0 = 0 ∧ b.getD (i + 1) 0 = 0 ∧
      b.getD (i + 2) 0 = 1 then 3
  else 0

/-- The inner scan's match condition at position `j` (lines 549-558). -/
def isNalEndAt (b : List Nat) (j : Nat) : Prop :=
  b.getD j 0 = 0 ∧ b.getD (j + 1) 0 = 0 ∧
    (b.getD (j + 2) 0 = 1 ∨
      (j + 4 ≤ b.length ∧ b.getD (j + 2) 0 = 0 ∧ b.getD (j + 3) 0 = 1))

instance (b : List Nat) (j : Nat) : Decidable (isNalEndAt b j) := by
  unfold isNalEndAt
  exact inferInstance

/-- The inner loop (lines 548-559): first match position at or after
`nalStart`, else the end of the buffer. -/
def findNalEnd (b : List Nat) (j : Nat) : Nat :=
  if h : j + 3 ≤ b.length then
    if isNalEndAt b j then j else findNalEnd b (j + 1)
  else b.length
termination_by b.length - j
decreasing_by omega

theorem findNalEnd_stop (b : List Nat) (j : Nat) (h : ¬ j + 3 ≤ b.length) :
    findNalEnd b j = b.length := by
  rw [findNalEnd, dif_neg h]

theorem findNalEnd_hit (b : List Nat) (j : Nat) (h : j + 3 ≤ b.length)
    (hm : isNalEndAt b j) : findNalEnd b j = j := by
  rw [findNalEnd, dif_pos h, if_pos hm]

theorem findNalEnd_step (b : List Nat) (j : Nat) (h : j + 3 ≤ b.length)
    (hm : ¬ isNalEndAt b j) : findNalEnd b j = findNalEnd b (j + 1) := by
  rw [findNalEnd, dif_pos h, if_neg hm]

theorem findNalEnd_ge (b : List Nat) (j : Nat) (hj : j ≤ b.length) :
    j ≤ findNalEnd b j := by
  rw [findNalEnd]
  split
  · split
    · exact le_rfl
    · have := findNalEnd_ge b (j + 1) (by omega)
      omega
  · exact hj
termination_by b.length - j
decreasing_by omega

theorem startCodeLenAt_pos (b : List Nat) (i : Nat) (h : startCodeLenAt b i ≠ 0) :
    3 ≤ startCodeLenAt b i ∧ i + startCodeLenAt b i ≤ b.length := by
  rw [startCodeLenAt] at h ⊢
  split at h
  · next hc => simp only [if_pos hc]; omega
  · next hc =>
    split at h
    · next hc' => rw [if_neg hc, if_pos hc']; omega
    · next hc' => rw [if_neg hc, if_neg hc']; omega

/-- The outer loop (lines 526-584), as the list of `(nalStart, nalEnd)`
pairs it visits. -/
def scanUnits (b : List Nat) (i : Nat) : List (Nat × Nat) :=
  if hlt : i < b.length then
    if hscl : startCodeLenAt b i = 0 then scanUnits b (i + 1)
    else
      (i + startCodeLenAt b i, findNalEnd b (i + startCodeLenAt b i)) ::
        scanUnits b (findNalEnd b (i + startCodeLenAt b i))
  else []
termination_by b.length - i
decreasing_by
  · omega
  · have h1 := startCodeLenAt_pos b i hscl
    have h2 := findNalEnd_ge b (i + startCodeLenAt b i) (by omega)
    omega

theorem scanUnits_stop (b : List Nat) (i : Nat) (h : ¬ i < b.length) :
    scanUnits b i = [] := by
  rw [scanUnits, dif_neg h]

theorem scanUnits_skip (b : List Nat) (i : Nat) (h : i < b.length)
    (h0 : startCodeLenAt b i = 0) : scanUnits b i = scanUnits b (i + 1) := by
  rw [scanUnits, dif_pos h, dif_pos h0]

theorem scanUnits_unit (b : List Nat) (i : Nat) (h : i < b.length)
    (h0 : startCodeLenAt b i ≠ 0) :
    scanUnits b i =
      (i + startCodeLenAt b i, findNalEnd b (i + startCodeLenAt b i)) ::
        scanUnits b (findNalEnd b (i + startCodeLenAt b i)) := by
  rw [scanUnits, dif_pos h, dif_neg h0]

/-- Bytes `[s, e)` of the buffer: the payload `annexB + nalStart ..
annexB + nalEnd`. -/
def sliceBytes (b : List Nat) (s e : Nat) : List Nat := (b.take e).drop s

/-- The payloads of the units the code emits: units with
`nalStart < nalEnd` (line 562's guard skips empty units). -/
def scanPayloads (b : List Nat) : List (List Nat) :=
  ((scanUnits b 0).filter (fun p => p.1 < p.2)).map (fun p => sliceBytes b p.1 p.2)

/-- Cached parameter-set state (`m_sps`, `m_pps`, `m_haveSpsPs`). -/
structure ReframeState where
  sps : List Nat
  pps : List Nat
  haveSpsPs : Bool
deriving DecidableEq

def initReframeState : ReframeState := { sps := [], pps := [], haveSpsPs := false }

/-- The 4-byte big-endian length prefix written at lines 575-579:
`htonl((uint32_t) nalSize)` copied into the buffer on the little-endian
host. -/
def lenPfx (n : Nat) : List Nat := le32 (bswap32 (n % 2 ^ 32))

/-- Per-unit processing (lines 562-581): classify by the low 5 bits of the
first payload byte, update the SPS/PPS cache, append the length-prefixed
unit to the output. -/
def processUnit (acc : ReframeState × List Nat) (u : List Nat) : ReframeState × List Nat :=
  let nalType := u.headD 0 % 32
  ({ sps := if nalType = 7 then u else acc.1.sps,
     pps := if nalType = 8 then u else acc.1.pps,
     haveSpsPs := if nalType = 8 then true else acc.1.haveSpsPs },
   acc.2 ++ lenPfx u.length ++ u)

/-- `ConvertAnnexBToAVCC`: the updated cache, the AVCC output buffer
(cleared at entry, line 523), and whether the callback was invoked
(line 587: iff the output buffer is nonempty). -/
def convertAnnexBToAVCC (st : ReframeState) (b : List Nat) :
    ReframeState × List Nat × Bool :=
  let r := (scanPayloads b).foldl processUnit (st, [])
  (r.1, r.2, !r.2.isEmpty)

/-- `true` iff the list contains no two consecutive zero bytes (so it
contains no start-code fragment; a well-formed NAL payload, which uses
emulation prevention, satisfies this). -/
def noTwoZeros : List Nat → Bool
  | a :: c :: rest => (decide ¬(a = 0 ∧ c = 0)) && noTwoZeros (c :: rest)
  | _ => true

theorem noTwoZeros_tail (x : Nat) (p : List Nat) (h : noTwoZeros (x :: p) = true) :
    noTwoZeros p = true := by
  cases p with
  | nil => rfl
  | cons c rest =>
    simp only [noTwoZeros, Bool.and_eq_true] at h
    exact h.2

theorem noTwoZeros_head (x c : Nat) (p : List Nat) (h : noTwoZeros (x :: c :: p) = true) :
    ¬(x = 0 ∧ c = 0) := by
  simp only [noTwoZeros, Bool.and_eq_true, decide_eq_true_eq] at h
  exact h.1

/-- `getD` at the first position after a known prefix. -/
theorem getD_at (l r : List Nat) (x : Nat) (n : Nat) (hn : n = l.length) :
    (l ++ x :: r).getD n 0 = x := by
  subst hn
  rw [List.getD_append_right _ _ _ _ le_rfl, Nat.sub_self]
  rfl

/-- Scanning for the NAL end from just after the start code runs through a
payload with no two consecutive zero bytes, and stops exactly at the next
4-byte start code (or at the end of the buffer). -/
theorem findNalEnd_through (p : List Nat) : ∀ (pre rest : List Nat),
    noTwoZeros p = true →
    (rest = [] ∨ ∃ r', rest = 0 :: 0 :: 0 :: 1 :: r') →
    findNalEnd ((pre ++ p) ++ rest) pre.length = pre.length + p.length := by
  induction p with
  | nil =>
    intro pre rest _ hrest
    rcases hrest with rfl | ⟨r', rfl⟩
    · simp only [List.append_nil]
      rw [findNalEnd_stop _ _ (by omega)]
      simp
    · simp only [List.append_nil, List.length_nil, Nat.add_zero]
      apply findNalEnd_hit
      · simp [List.length_append]
      · refine ⟨?_, ?_, Or.inr ⟨?_, ?_, ?_⟩⟩
        · exact getD_at pre _ 0 _ rfl
        · rw [show pre ++ 0 :: 0 :: 0 :: 1 :: r' = (pre ++ [0]) ++ 0 :: 0 :: 1 :: r' by simp]
          exact getD_at (pre ++ [0]) _ 0 _ (by simp)
        · simp [List.length_append]
        · rw [show pre ++ 0 :: 0 :: 0 :: 1 :: r' = (pre ++ [0, 0]) ++ 0 :: 1 :: r' by simp]
          exact getD_at (pre ++ [0, 0]) _ 0 _ (by simp)
        · rw [show pre ++ 0 :: 0 :: 0 :: 1 :: r' = (pre ++ [0, 0, 0]) ++ 1 :: r' by simp]
          exact getD_at (pre ++ [0, 0, 0]) _ 1 _ (by simp)
  | cons x p' ih =>
    intro pre rest hz hrest
    by_cases h3 : pre.length + 3 ≤ ((pre ++ x :: p') ++ rest).length
    · have e1 : ((pre ++ x :: p') ++ rest).getD pre.length 0 = x := by
        rw [show (pre ++ x :: p') ++ rest = pre ++ x :: (p' ++ rest) by simp]
        exact getD_at pre _ x _ rfl
      have hnm : ¬ isNalEndAt ((pre ++ x :: p') ++ rest) pre.length := by
        cases p' with
        | cons y p'' =>
          have e2 : ((pre ++ x :: y :: p'') ++ rest).getD (pre.length + 1) 0 = y := by
            rw [show (pre ++ x :: y :: p'') ++ rest = (pre ++ [x]) ++ y :: (p'' ++ rest) by simp]
            exact getD_at (pre ++ [x]) _ y _ (by simp)
          intro hm
          obtain ⟨hA, hB, _⟩ := hm
          rw [e1] at hA
          rw [e2] at hB
          exact noTwoZeros_head x y p'' hz ⟨hA, hB⟩
        | nil =>
          rcases hrest with rfl | ⟨r', rfl⟩
          · simp [List.length_append] at h3
          · have e3 : ((pre ++ [x]) ++ 0 :: 0 :: 0 :: 1 :: r').getD (pre.length + 2) 0 = 0 := by
              rw [show (pre ++ [x]) ++ 0 :: 0 :: 0 :: 1 :: r' =
                (pre ++ [x, 0]) ++ 0 :: (0 :: 1 :: r') by simp]
              exact getD_at (pre ++ [x, 0]) _ 0 _ (by simp)
            have e4 : ((pre ++ [x]) ++ 0 :: 0 :: 0 :: 1 :: r').getD (pre.length + 3) 0 = 0 := by
              rw [show (pre ++ [x]) ++ 0 :: 0 :: 0 :: 1 :: r' =
                (pre ++ [x, 0, 0]) ++ 0 :: (1 :: r') by simp]
              exact getD_at (pre ++ [x, 0, 0]) _ 0 _ (by simp)
            intro hm
            obtain ⟨_, _, hC⟩ := hm
            rcases hC with hC | ⟨_, hC, hD⟩
            · rw [show (pre ++ [x]) ++ 0 :: 0 :: 0 :: 1 :: r' =
                (pre ++ [x, 0]) ++ 0 :: (0 :: 1 :: r') by simp] at hC
              rw [getD_at (pre ++ [x, 0]) _ 0 _ (by simp)] at hC
              exact absurd hC (by omega)
            · rw [e4] at hD
              exact absurd hD (by omega)
      rw [findNalEnd_step _ _ h3 hnm]
      have hrec := ih (pre ++ [x]) rest (noTwoZeros_tail x p' hz) hrest
      rw [show ((pre ++ [x]) ++ p') ++ rest = (pre ++ x :: p') ++ rest by simp] at hrec
      rw [show (pre ++ [x]).length = pre.length + 1 by simp] at hrec
      rw [hrec]
      simp only [List.length_cons]
      omega
    · rcases hrest with rfl | ⟨r', rfl⟩
      · rw [findNalEnd_stop _ _ h3]
        simp only [List.append_nil, List.length_append, List.length_cons]
      · exfalso
        simp only [List.length_append, List.length_cons] at h3
        omega

/-- The outer loop at a 4-byte start code: it emits the unit bounded by the
following start code (or buffer end) and resumes at the unit's end. -/
theorem scanUnits_sc4 (pre p rest : List Nat) (s : Nat) (hs : s = pre.length)
    (hz : noTwoZeros p = true)
    (hrest : rest = [] ∨ ∃ r', rest = 0 :: 0 :: 0 :: 1 :: r') :
    scanUnits ((pre ++ 0 :: 0 :: 0 :: 1 :: p) ++ rest) s =
      (s + 4, s + 4 + p.length) ::
        scanUnits ((pre ++ 0 :: 0 :: 0 :: 1 :: p) ++ rest) (s + 4 + p.length) := by
  subst hs
  have hlen : ((pre ++ 0 :: 0 :: 0 :: 1 :: p) ++ rest).length =
      pre.length + 4 + p.length + rest.length := by
    simp only [List.length_append, List.length_cons]
    omega
  have e0 : ((pre ++ 0 :: 0 :: 0 :: 1 :: p) ++ rest).getD pre.length 0 = 0 := by
    rw [show (pre ++ 0 :: 0 :: 0 :: 1 :: p) ++ rest =
      pre ++ 0 :: ((0 :: 0 :: 1 :: p) ++ rest) by simp]
    exact getD_at pre _ 0 _ rfl
  have e1 : ((pre ++ 0 :: 0 :: 0 :: 1 :: p) ++ rest).getD (pre.length + 1) 0 = 0 := by
    rw [show (pre ++ 0 :: 0 :: 0 :: 1 :: p) ++ rest =
      (pre ++ [0]) ++ 0 :: ((0 :: 1 :: p) ++ rest) by simp]
    exact getD_at (pre ++ [0]) _ 0 _ (by simp)
  have e2 : ((pre ++ 0 :: 0 :: 0 :: 1 :: p) ++ rest).getD (pre.length + 2) 0 = 0 := by
    rw [show (pre ++ 0 :: 0 :: 0 :: 1 :: p) ++ rest =
      (pre ++ [0, 0]) ++ 0 :: ((1 :: p) ++ rest) by simp]
    exact getD_at (pre ++ [0, 0]) _ 0 _ (by simp)
  have e3 : ((pre ++ 0 :: 0 :: 0 :: 1 :: p) ++ rest).getD (pre.length + 3) 0 = 1 := by
    rw [show (pre ++ 0 :: 0 :: 0 :: 1 :: p) ++ rest =
      (pre ++ [0, 0, 0]) ++ 1 :: (p ++ rest) by simp]
    exact getD_at (pre ++ [0, 0, 0]) _ 1 _ (by simp)
  have hscl : startCodeLenAt ((pre ++ 0 :: 0 :: 0 :: 1 :: p) ++ rest) pre.length = 4 := by
    rw [startCodeLenAt, if_pos ⟨by omega, e0, e1, e2, e3⟩]
  have hne := findNalEnd_through p (pre ++ [0, 0, 0, 1]) rest hz hrest
  rw [show ((pre ++ [0, 0, 0, 1]) ++ p) ++ rest =
    (pre ++ 0 :: 0 :: 0 :: 1 :: p) ++ rest by simp] at hne
  have hx : (pre ++ ([0, 0, 0, 1] : List Nat)).length = pre.length + 4 := by simp
  rw [hx] at hne
  rw [scanUnits_unit _ _ (by omega) (by rw [hscl]; omega), hscl, hne]

/-- With no start code anywhere in the buffer, the outer loop emits
nothing. -/
theorem scanUnits_all_skip (b : List Nat) (hb : ∀ j, startCodeLenAt b j = 0) (i : Nat) :
    scanUnits b i = [] := by
  by_cases h : i < b.length
  · rw [scanUnits_skip b i h (hb i)]
    exact scanUnits_all_skip b hb (i + 1)
  · exact scanUnits_stop b i h
termination_by b.length - i
decreasing_by omega

/-- Extracting the bytes between a known prefix and suffix. -/
theorem sliceBytes_at (pre p rest : List Nat) (s e : Nat) (hs : s = pre.length)
    (he : e = pre.length + p.length) : sliceBytes ((pre ++ p) ++ rest) s e = p := by
  subst hs he
  rw [sliceBytes, List.take_left' (by simp), List.drop_left' rfl]

/-- Scanning a buffer made of three 4-byte-start-code-delimited units
visits exactly those three units. -/
theorem scanUnits_three (p1 p2 p3 : List Nat)
    (hz1 : noTwoZeros p1 = true) (hz2 : noTwoZeros p2 = true) (hz3 : noTwoZeros p3 = true) :
    scanUnits (((0 :: 0 :: 0 :: 1 :: p1) ++ (0 :: 0 :: 0 :: 1 :: p2)) ++
        (0 :: 0 :: 0 :: 1 :: p3)) 0 =
      [(0 + 4, 0 + 4 + p1.length),
       (0 + 4 + p1.length + 4, 0 + 4 + p1.length + 4 + p2.length),
       (0 + 4 + p1.length + 4 + p2.length + 4,
        0 + 4 + p1.length + 4 + p2.length + 4 + p3.length)] := by
  have h1 := scanUnits_sc4 [] p1 ((0 :: 0 :: 0 :: 1 :: p2) ++ (0 :: 0 :: 0 :: 1 :: p3))
    0 rfl hz1 (Or.inr ⟨p2 ++ (0 :: 0 :: 0 :: 1 :: p3), by simp⟩)
  rw [show (([] : List Nat) ++ 0 :: 0 :: 0 :: 1 :: p1) ++
      ((0 :: 0 :: 0 :: 1 :: p2) ++ (0 :: 0 :: 0 :: 1 :: p3)) =
    ((0 :: 0 :: 0 :: 1 :: p1) ++ (0 :: 0 :: 0 :: 1 :: p2)) ++
      (0 :: 0 :: 0 :: 1 :: p3) by simp] at h1
  have h2 := scanUnits_sc4 (0 :: 0 :: 0 :: 1 :: p1) p2 (0 :: 0 :: 0 :: 1 :: p3)
    (0 + 4 + p1.length) (by simp only [List.length_cons]; omega) hz2 (Or.inr ⟨p3, rfl⟩)
  have h3 := scanUnits_sc4 ((0 :: 0 :: 0 :: 1 :: p1) ++ (0 :: 0 :: 0 :: 1 :: p2)) p3 []
    (0 + 4 + p1.length + 4 + p2.length)
    (by simp only [List.length_append, List.length_cons]; omega) hz3 (Or.inl rfl)
  rw [show ((((0 :: 0 :: 0 :: 1 :: p1) ++ (0 :: 0 :: 0 :: 1 :: p2)) ++
      0 :: 0 :: 0 :: 1 :: p3) ++ ([] : List Nat)) =
    ((0 :: 0 :: 0 :: 1 :: p1) ++ (0 :: 0 :: 0 :: 1 :: p2)) ++
      (0 :: 0 :: 0 :: 1 :: p3) by simp] at h3
  have h4 : scanUnits (((0 :: 0 :: 0 :: 1 :: p1) ++ (0 :: 0 :: 0 :: 1 :: p2)) ++
      (0 :: 0 :: 0 :: 1 :: p3)) (0 + 4 + p1.length + 4 + p2.length + 4 + p3.length) = [] := by
    apply scanUnits_stop
    simp only [List.length_append, List.length_cons]
    omega
  rw [h1, h2, h3, h4]

/--
C3: reframing an Annex-B buffer of exactly three nonempty units — an SPS
(type 7), a PPS (type 8) and an IDR slice (type 5), each preceded by a
4-byte start code and containing no start-code-like byte pattern — emits
exactly those three payloads, each with a 4-byte big-endian length prefix;
the output length is `3*4` plus the payload lengths, the cached SPS and
PPS equal the original SPS and PPS payloads, and the callback fires.
-/
theorem reframe_three_units_c3 (st : ReframeState) (p1 p2 p3 : List Nat)
    (h1 : p1 ≠ []) (h2 : p2 ≠ []) (h3 : p3 ≠ [])
    (hz1 : noTwoZeros p1 = true) (hz2 : noTwoZeros p2 = true) (hz3 : noTwoZeros p3 = true)
    (ht1 : p1.headD 0 % 32 = 7) (ht2 : p2.headD 0 % 32 = 8) (ht3 : p3.headD 0 % 32 = 5) :
    scanPayloads (((0 :: 0 :: 0 :: 1 :: p1) ++ (0 :: 0 :: 0 :: 1 :: p2)) ++
        (0 :: 0 :: 0 :: 1 :: p3)) = [p1, p2, p3] ∧
    (convertAnnexBToAVCC st (((0 :: 0 :: 0 :: 1 :: p1) ++ (0 :: 0 :: 0 :: 1 :: p2)) ++
        (0 :: 0 :: 0 :: 1 :: p3))).2.1 =
      lenPfx p1.length ++ (p1 ++ (lenPfx p2.length ++ (p2 ++
        (lenPfx p3.length ++ p3)))) ∧
    (convertAnnexBToAVCC st (((0 :: 0 :: 0 :: 1 :: p1) ++ (0 :: 0 :: 0 :: 1 :: p2)) ++
        (0 :: 0 :: 0 :: 1 :: p3))).2.1.length =
      3 * 4 + (p1.length + p2.length + p3.length) ∧
    (convertAnnexBToAVCC st (((0 :: 0 :: 0 :: 1 :: p1) ++ (0 :: 0 :: 0 :: 1 :: p2)) ++
        (0 :: 0 :: 0 :: 1 :: p3))).1.sps = p1 ∧
    (convertAnnexBToAVCC st (((0 :: 0 :: 0 :: 1 :: p1) ++ (0 :: 0 :: 0 :: 1 :: p2)) ++
        (0 :: 0 :: 0 :: 1 :: p3))).1.pps = p2 ∧
    (convertAnnexBToAVCC st (((0 :: 0 :: 0 :: 1 :: p1) ++ (0 :: 0 :: 0 :: 1 :: p2)) ++
        (0 :: 0 :: 0 :: 1 :: p3))).2.2 = true := by
  have hl1 : 0 < p1.length := List.length_pos.mpr h1
  have hl2 : 0 < p2.length := List.length_pos.mpr h2
  have hl3 : 0 < p3.length := List.length_pos.mpr h3
  have hsp : scanPayloads (((0 :: 0 :: 0 :: 1 :: p1) ++ (0 :: 0 :: 0 :: 1 :: p2)) ++
      (0 :: 0 :: 0 :: 1 :: p3)) = [p1, p2, p3] := by
    rw [scanPayloads, scanUnits_three p1 p2 p3 hz1 hz2 hz3]
    have d1 : 0 + 4 < 0 + 4 + p1.length := by omega
    have d2 : 0 + 4 + p1.length + 4 < 0 + 4 + p1.length + 4 + p2.length := by omega
    have d3 : 0 + 4 + p1.length + 4 + p2.length + 4 <
        0 + 4 + p1.length + 4 + p2.length + 4 + p3.length := by omega
    simp only [List.filter_cons, List.filter_nil, decide_eq_true_eq, if_pos d1, if_pos d2,
      if_pos d3, List.map_cons, List.map_nil]
    have s1 : sliceBytes (((0 :: 0 :: 0 :: 1 :: p1) ++ (0 :: 0 :: 0 :: 1 :: p2)) ++
        (0 :: 0 :: 0 :: 1 :: p3)) (0 + 4) (0 + 4 + p1.length) = p1 := by
      rw [show ((0 :: 0 :: 0 :: 1 :: p1) ++ (0 :: 0 :: 0 :: 1 :: p2)) ++
          (0 :: 0 :: 0 :: 1 :: p3) =
        (([0, 0, 0, 1] ++ p1) ++
          ((0 :: 0 :: 0 :: 1 :: p2) ++ (0 :: 0 :: 0 :: 1 :: p3))) by simp]
      exact sliceBytes_at [0, 0, 0, 1] p1
        ((0 :: 0 :: 0 :: 1 :: p2) ++ (0 :: 0 :: 0 :: 1 :: p3))
        (0 + 4) (0 + 4 + p1.length) (by simp) (by simp)
    have s2 : sliceBytes (((0 :: 0 :: 0 :: 1 :: p1) ++ (0 :: 0 :: 0 :: 1 :: p2)) ++
        (0 :: 0 :: 0 :: 1 :: p3)) (0 + 4 + p1.length + 4)
        (0 + 4 + p1.length + 4 + p2.length) = p2 := by
      rw [show ((0 :: 0 :: 0 :: 1 :: p1) ++ (0 :: 0 :: 0 :: 1 :: p2)) ++
          (0 :: 0 :: 0 :: 1 :: p3) =
        ((((0 :: 0 :: 0 :: 1 :: p1) ++ [0, 0, 0, 1]) ++ p2) ++
          (0 :: 0 :: 0 :: 1 :: p3)) by simp]
      exact sliceBytes_at ((0 :: 0 :: 0 :: 1 :: p1) ++ [0, 0, 0, 1]) p2
        (0 :: 0 :: 0 :: 1 :: p3) (0 + 4 + p1.length + 4) (0 + 4 + p1.length + 4 + p2.length)
        (by simp only [List.length_append, List.length_cons, List.length_nil]; omega)
        (by simp only [List.length_append, List.length_cons, List.length_nil]; omega)
    have s3 : sliceBytes (((0 :: 0 :: 0 :: 1 :: p1) ++ (0 :: 0 :: 0 :: 1 :: p2)) ++
        (0 :: 0 :: 0 :: 1 :: p3)) (0 + 4 + p1.length + 4 + p2.length + 4)
        (0 + 4 + p1.length + 4 + p2.length + 4 + p3.length) = p3 := by
      rw [show ((0 :: 0 :: 0 :: 1 :: p1) ++ (0 :: 0 :: 0 :: 1 :: p2)) ++
          (0 :: 0 :: 0 :: 1 :: p3) =
        (((((0 :: 0 :: 0 :: 1 :: p1) ++ (0 :: 0 :: 0 :: 1 :: p2)) ++ [0, 0, 0, 1]) ++ p3)
          ++ ([] : List Nat)) by simp]
      exact sliceBytes_at
        (((0 :: 0 :: 0 :: 1 :: p1) ++ (0 :: 0 :: 0 :: 1 :: p2)) ++ [0, 0, 0, 1]) p3 []
        (0 + 4 + p1.length + 4 + p2.length + 4)
        (0 + 4 + p1.length + 4 + p2.length + 4 + p3.length)
        (by simp only [List.length_append, List.length_cons, List.length_nil]; omega)
        (by simp only [List.length_append, List.length_cons, List.length_nil]; omega)
    rw [s1, s2, s3]
  refine ⟨hsp, ?_, ?_, ?_, ?_, ?_⟩ <;>
    simp only [convertAnnexBToAVCC, hsp, List.foldl_cons, List.foldl_nil, processUnit,
      ht1, ht2, ht3] <;>
    simp [lenPfx, le32] <;> omega

theorem reframe_three_units_c3_witness :
    scanPayloads (((0 :: 0 :: 0 :: 1 :: [0x67]) ++ (0 :: 0 :: 0 :: 1 :: [0x68])) ++
        (0 :: 0 :: 0 :: 1 :: [0x65])) = [[0x67], [0x68], [0x65]] ∧
    (convertAnnexBToAVCC initReframeState
        (((0 :: 0 :: 0 :: 1 :: [0x67]) ++ (0 :: 0 :: 0 :: 1 :: [0x68])) ++
          (0 :: 0 :: 0 :: 1 :: [0x65]))).2.1 =
      lenPfx [0x67].length ++ ([0x67] ++ (lenPfx [0x68].length ++ ([0x68] ++
        (lenPfx [0x65].length ++ [0x65])))) ∧
    (convertAnnexBToAVCC initReframeState
        (((0 :: 0 :: 0 :: 1 :: [0x67]) ++ (0 :: 0 :: 0 :: 1 :: [0x68])) ++
          (0 :: 0 :: 0 :: 1 :: [0x65]))).2.1.length =
      3 * 4 + ([0x67].length + [0x68].length + [0x65].length) ∧
    (convertAnnexBToAVCC initReframeState
        (((0 :: 0 :: 0 :: 1 :: [0x67]) ++ (0 :: 0 :: 0 :: 1 :: [0x68])) ++
          (0 :: 0 :: 0 :: 1 :: [0x65]))).1.sps = [0x67] ∧
    (convertAnnexBToAVCC initReframeState
        (((0 :: 0 :: 0 :: 1 :: [0x67]) ++ (0 :: 0 :: 0 :: 1 :: [0x68])) ++
          (0 :: 0 :: 0 :: 1 :: [0x65]))).1.pps = [0x68] ∧
    (convertAnnexBToAVCC initReframeState
        (((0 :: 0 :: 0 :: 1 :: [0x67]) ++ (0 :: 0 :: 0 :: 1 :: [0x68])) ++
          (0 :: 0 :: 0 :: 1 :: [0x65]))).2.2 = true :=
  reframe_three_units_c3 initReframeState [0x67] [0x68] [0x65]
    (by decide) (by decide) (by decide) (by decide) (by decide) (by decide)
    (by decide) (by decide) (by decide)

/-- A buffer shorter than 3 bytes cannot contain a start code. -/
theorem startCodeLenAt_short (b : List Nat) (hb : b.length < 3) (j : Nat) :
    startCodeLenAt b j = 0 := by
  have h1 : ¬(j + 4 ≤ b.length ∧ b.getD j 0 = 0 ∧ b.getD (j + 1) 0 = 0 ∧
      b.getD (j + 2) 0 = 0 ∧ b.getD (j + 3) 0 = 1) := by
    rintro ⟨h, -⟩
    omega
  have h2 : ¬(j + 3 ≤ b.length ∧ b.getD j 0 = 0 ∧ b.getD (j + 1) 0 = 0 ∧
      b.getD (j + 2) 0 = 1) := by
    rintro ⟨h, -⟩
    omega
  rw [startCodeLenAt, if_neg h1, if_neg h2]

/--
C8: (a) on an input containing no valid 3-byte or 4-byte start code at any
position, `ConvertAnnexBToAVCC` leaves the output buffer empty, leaves the
parameter-set cache untouched and does not invoke the callback (the
malformed bytes are dropped); (b) a zero-length unit between two start
codes is skipped, not emitted: two adjacent 4-byte start codes followed by
a payload yield exactly one emitted unit.
-/
theorem reframe_malformed_c8 :
    (∀ (b : List Nat) (st : ReframeState), (∀ j, startCodeLenAt b j = 0) →
      convertAnnexBToAVCC st b = (st, [], false)) ∧
    (∀ (p : List Nat) (st : ReframeState), p ≠ [] → noTwoZeros p = true →
      scanPayloads (0 :: 0 :: 0 :: 1 :: 0 :: 0 :: 0 :: 1 :: p) = [p] ∧
      (convertAnnexBToAVCC st (0 :: 0 :: 0 :: 1 :: 0 :: 0 :: 0 :: 1 :: p)).2.1 =
          lenPfx p.length ++ p) := by
  constructor
  · intro b st hb
    have h0 : scanUnits b 0 = [] := scanUnits_all_skip b hb 0
    simp [convertAnnexBToAVCC, scanPayloads, h0]
  · intro p st hp hz
    have hu1 := scanUnits_sc4 [] [] (0 :: 0 :: 0 :: 1 :: p) 0 rfl rfl (Or.inr ⟨p, rfl⟩)
    rw [show (([] : List Nat) ++ 0 :: 0 :: 0 :: 1 :: ([] : List Nat)) ++
        (0 :: 0 :: 0 :: 1 :: p) =
      0 :: 0 :: 0 :: 1 :: 0 :: 0 :: 0 :: 1 :: p by simp] at hu1
    have hu2 := scanUnits_sc4 (0 :: 0 :: 0 :: 1 :: ([] : List Nat)) p []
      (0 + 4 + List.length ([] : List Nat))
      (by simp only [List.length_cons, List.length_nil]) hz (Or.inl rfl)
    rw [show ((0 :: 0 :: 0 :: 1 :: ([] : List Nat)) ++ 0 :: 0 :: 0 :: 1 :: p) ++
        ([] : List Nat) =
      0 :: 0 :: 0 :: 1 :: 0 :: 0 :: 0 :: 1 :: p by simp] at hu2
    have hu3 : scanUnits (0 :: 0 :: 0 :: 1 :: 0 :: 0 :: 0 :: 1 :: p)
        (0 + 4 + List.length ([] : List Nat) + 4 + p.length) = [] := by
      apply scanUnits_stop
      simp only [List.length_cons, List.length_nil]
      omega
    have hsp : scanPayloads (0 :: 0 :: 0 :: 1 :: 0 :: 0 :: 0 :: 1 :: p) = [p] := by
      rw [scanPayloads, hu1, hu2, hu3]
      have d0 : ¬ (0 + 4 < 0 + 4 + List.length ([] : List Nat)) := by simp
      have d1 : 0 + 4 + List.length ([] : List Nat) + 4 <
          0 + 4 + List.length ([] : List Nat) + 4 + p.length := by
        have : 0 < p.length := List.length_pos.mpr hp
        simp only [List.length_nil]
        omega
      simp only [List.filter_cons, List.filter_nil, decide_eq_true_eq, if_pos d1,
        if_neg d0, List.map_cons, List.map_nil]
      have s1 : sliceBytes (0 :: 0 :: 0 :: 1 :: 0 :: 0 :: 0 :: 1 :: p)
          (0 + 4 + List.length ([] : List Nat) + 4)
          (0 + 4 + List.length ([] : List Nat) + 4 + p.length) = p := by
        rw [show (0 :: 0 :: 0 :: 1 :: 0 :: 0 :: 0 :: 1 :: p : List Nat) =
          (([0, 0, 0, 1, 0, 0, 0, 1] ++ p) ++ ([] : List Nat)) by simp]
        exact sliceBytes_at [0, 0, 0, 1, 0, 0, 0, 1] p []
          (0 + 4 + List.length ([] : List Nat) + 4)
          (0 + 4 + List.length ([] : List Nat) + 4 + p.length)
          (by simp only [List.length_cons, List.length_nil])
          (by simp only [List.length_cons, List.length_nil])
      rw [s1]
    refine ⟨hsp, ?_⟩
    simp [convertAnnexBToAVCC, hsp, processUnit]

theorem reframe_malformed_c8_witness :
    convertAnnexBToAVCC initReframeState [5, 5] = (initReframeState, [], false) ∧
    ((scanPayloads (0 :: 0 :: 0 :: 1 :: 0 :: 0 :: 0 :: 1 :: [0x65]) = [[0x65]]) ∧
      (convertAnnexBToAVCC initReframeState
        (0 :: 0 :: 0 :: 1 :: 0 :: 0 :: 0 :: 1 :: [0x65])).2.1 =
          lenPfx [0x65].length ++ [0x65]) :=
  ⟨(reframe_malformed_c8.1) [5, 5] initReframeState
      (startCodeLenAt_short [5, 5] (by decide)),
   (reframe_malformed_c8.2) [0x65] initReframeState (by decide) (by decide)⟩

theorem write_failure_suppression_c9_witness :
    (encodedCallback initChanState 4 [.err]).reports = initChanState.reports + 1 ∧
    (encodedCallback initChanState 4 [.err]).running = false ∧
    (∀ calls : List (Nat × List WriteRes),
      calls.foldl (fun s c => encodedCallback s c.1 c.2)
          (encodedCallback initChanState 4 [.err]) =
        encodedCallback initChanState 4 [.err]) :=
  write_failure_suppression_c9 initChanState 4 [.err] (by decide) (by decide)

end Snacka
